import Mathlib

/-!
Verification of the clustering / similarity-search / coherence / suggestion core of the
`obsidian-knowledge-synthesizer` plugin, as a shallow embedding in Lean.

Conventions of the embedding:
* JavaScript `number` values that carry similarities, thresholds and vector components are
  modelled as real numbers (`ℝ`).
* A JavaScript `Map` (insertion-ordered) is modelled as a `List` of entries in insertion
  order; `Map.get` is `List.find?` on the key.
* Code that can `throw` is modelled with `Except String`; a thrown `Error` is `.error msg`.
* `Array.prototype.sort(cmp)` with a consistent comparator is modelled by
  `List.insertionSort` with the corresponding "may come before" relation.
* Optional JavaScript parameters / object fields are modelled with `Option`, with the
  source's destructuring defaults applied at the use site, exactly as in the source.
-/

/-! ## Data model (src/core/domain): embedding vectors and search results -/

/-- The `EmbeddingVector` from `embedding-provider.interface.ts` (the `content` field is not
used by any of the operations modelled here and is omitted). -/
structure EmbeddingVector where
  noteId : String
  notePath : String
  vector : List ℝ

/-- The `VectorSearchResult` from `vector-store.interface.ts`. -/
structure VectorSearchResult where
  noteId : String
  notePath : String
  similarity : ℝ

/-- The `VectorSearchOptions` from `vector-store.interface.ts`; each field is optional in the
TypeScript interface. -/
structure VectorSearchOptions where
  limit : Option Nat := none
  threshold : Option ℝ := none
  excludeNoteIds : Option (List String) := none

/-! ## Dot products and the Cauchy-Schwarz bound

Both `cosineSimilarity` implementations run one loop accumulating
`dotProduct`, `normA` (the dot product of `a` with itself) and `normB`; with vectors
as lists the three accumulators are `zipWith`-sums. -/

/-- The `dotProduct` accumulator of the `cosineSimilarity` loops. -/
def dotList (a b : List ℝ) : ℝ := (List.zipWith (fun x y => x * y) a b).sum

theorem dotList_nil_right (a : List ℝ) : dotList a [] = 0 := by
  cases a <;> rfl

theorem dotList_cons (x y : ℝ) (a b : List ℝ) :
    dotList (x :: a) (y :: b) = x * y + dotList a b := rfl

theorem dotList_self_nonneg (a : List ℝ) : 0 ≤ dotList a a := by
  induction a with
  | nil => simp [dotList]
  | cons x xs ih =>
    rw [dotList_cons]
    have hx : 0 ≤ x * x := mul_self_nonneg x
    linarith

/-- Cauchy-Schwarz for the list dot product. -/
theorem dotList_sq_le (a : List ℝ) :
    ∀ b : List ℝ, (dotList a b) ^ 2 ≤ dotList a a * dotList b b := by
  induction a with
  | nil =>
    intro b
    simp [dotList]
  | cons x xs ih =>
    intro b
    cases b with
    | nil =>
      rw [dotList_nil_right, dotList_nil_right]
      norm_num
    | cons y ys =>
      have hD := ih ys
      have hA := dotList_self_nonneg xs
      have hB := dotList_self_nonneg ys
      rw [dotList_cons, dotList_cons, dotList_cons]
      set D := dotList xs ys with hDdef
      set A := dotList xs xs with hAdef
      set B := dotList ys ys with hBdef
      rcases eq_or_lt_of_le hB with hB0 | hBpos
      · have hD0 : D = 0 := by nlinarith [sq_nonneg D]
        rw [hD0, ← hB0]
        nlinarith [mul_nonneg hA (mul_self_nonneg y)]
      · have hkey : 0 ≤ B * (x * x * B + y * y * A - 2 * (x * y) * D) := by
          nlinarith [sq_nonneg (x * B - y * D), mul_nonneg (sq_nonneg y) (sub_nonneg.mpr hD)]
        have hquot : 0 ≤ x * x * B + y * y * A - 2 * (x * y) * D := by
          nlinarith [hkey, hBpos]
        nlinarith

/-- The quotient form of Cauchy-Schwarz used by both cosine implementations: when the
product of the two magnitudes is nonzero, the cosine value is at most 1. -/
theorem dot_div_magnitude_le_one (a b : List ℝ)
    (hmag : Real.sqrt (dotList a a) * Real.sqrt (dotList b b) ≠ 0) :
    dotList a b / (Real.sqrt (dotList a a) * Real.sqrt (dotList b b)) ≤ 1 := by
  have hA := dotList_self_nonneg a
  have hmagnn : 0 ≤ Real.sqrt (dotList a a) * Real.sqrt (dotList b b) :=
    mul_nonneg (Real.sqrt_nonneg _) (Real.sqrt_nonneg _)
  have hmagpos : 0 < Real.sqrt (dotList a a) * Real.sqrt (dotList b b) :=
    lt_of_le_of_ne hmagnn (Ne.symm hmag)
  rw [div_le_one hmagpos]
  calc dotList a b ≤ |dotList a b| := le_abs_self _
    _ = Real.sqrt ((dotList a b) ^ 2) := (Real.sqrt_sq_eq_abs _).symm
    _ ≤ Real.sqrt (dotList a a * dotList b b) := Real.sqrt_le_sqrt (dotList_sq_le a b)
    _ = Real.sqrt (dotList a a) * Real.sqrt (dotList b b) := Real.sqrt_mul hA _

/-! ## InMemoryVectorStore (src/adapters/embedding/in-memory-vector-store.ts) -/

namespace InMemoryVectorStore

/-- The store's `vectors: Map<string, EmbeddingVector>` in insertion order. -/
abbrev Store := List EmbeddingVector

/-- The `InMemoryVectorStore.store`: `vectors.set(noteId, embedding)` — on the list
model of the map, overwrite in place when the key already exists, append in insertion
order when it is new. -/
def store (s : Store) (embedding : EmbeddingVector) : Store :=
  if s.any (fun e => e.noteId = embedding.noteId) then
    s.map (fun e => if e.noteId = embedding.noteId then embedding else e)
  else s ++ [embedding]

/-- The `InMemoryVectorStore.cosineSimilarity`: throws (`.error`) when the dimensions differ,
returns 0 when `magnitude` (the product of the two square-rooted norms) is 0, otherwise
`dotProduct / magnitude`. -/
noncomputable def cosineSimilarity (a b : List ℝ) : Except String ℝ :=
  if a.length ≠ b.length then .error "Vectors must have the same dimensions"
  else if Real.sqrt (dotList a a) * Real.sqrt (dotList b b) = 0 then .ok 0
  else .ok (dotList a b / (Real.sqrt (dotList a a) * Real.sqrt (dotList b b)))

/-- Any successfully computed cosine similarity is at most 1. -/
theorem cosineSimilarity_le_one {a b : List ℝ} {s : ℝ}
    (h : cosineSimilarity a b = .ok s) : s ≤ 1 := by
  unfold cosineSimilarity at h
  split at h
  · exact absurd h (by simp)
  · split at h
    · obtain rfl : (0 : ℝ) = s := by simpa using h
      norm_num
    · next hmag =>
      obtain rfl : dotList a b / (Real.sqrt (dotList a a) * Real.sqrt (dotList b b)) = s := by
        simpa using h
      exact dot_div_magnitude_le_one a b hmag

end InMemoryVectorStore

/-! ## The similarity-descending sort

Both stores end their `search` with `results.sort((a, b) => b.similarity - a.similarity)`,
i.e. a comparison sort that puts `a` before `b` whenever `b.similarity ≤ a.similarity`. -/

/-- The "may come before" relation of the final sort of `search`. -/
def simDescRel (a b : VectorSearchResult) : Prop := b.similarity ≤ a.similarity

noncomputable instance : DecidableRel simDescRel := fun _ _ => Real.decidableLE _ _

instance : IsTotal VectorSearchResult simDescRel := ⟨fun a b => le_total b.similarity a.similarity⟩

instance : IsTrans VectorSearchResult simDescRel :=
  ⟨fun _ _ _ h1 h2 => le_trans h2 h1⟩

/-- Membership is preserved by the sort (it is a permutation). -/
theorem mem_insertionSort_simDesc {r : VectorSearchResult} {l : List VectorSearchResult} :
    r ∈ List.insertionSort simDescRel l ↔ r ∈ l :=
  (List.perm_insertionSort simDescRel l).mem_iff

namespace InMemoryVectorStore

/-- The result-collecting loop of `InMemoryVectorStore.search`: skips entries in the
exclusion list, computes the cosine similarity (which may throw), and keeps entries whose
similarity is at least the threshold. -/
noncomputable def searchLoop (queryVector : List ℝ) (threshold : ℝ)
    (excludeNoteIds : List String) : Store → Except String (List VectorSearchResult)
  | [] => .ok []
  | e :: rest =>
    if e.noteId ∈ excludeNoteIds then searchLoop queryVector threshold excludeNoteIds rest
    else
      match cosineSimilarity queryVector e.vector with
      | .error msg => .error msg
      | .ok similarity =>
        match searchLoop queryVector threshold excludeNoteIds rest with
        | .error msg => .error msg
        | .ok results =>
          .ok (if threshold ≤ similarity then
                ⟨e.noteId, e.notePath, similarity⟩ :: results
              else results)

/-- The `InMemoryVectorStore.search`, with the source's destructuring defaults
`limit = 10`, `threshold = 0.3`, `excludeNoteIds = []`, the collection loop, and the
final similarity-descending sort truncated to `limit` entries. -/
noncomputable def search (store : Store) (queryVector : List ℝ)
    (options : VectorSearchOptions) : Except String (List VectorSearchResult) :=
  (searchLoop queryVector (options.threshold.getD (3 / 10))
      (options.excludeNoteIds.getD []) store).map
    (fun results => (List.insertionSort simDescRel results).take (options.limit.getD 10))

/-- Every entry collected by a successful `searchLoop` clears the threshold, is not
excluded, and has similarity at most 1. -/
theorem searchLoop_mem {queryVector : List ℝ} {threshold : ℝ} {excludeNoteIds : List String}
    {store : Store} {rs : List VectorSearchResult}
    (h : searchLoop queryVector threshold excludeNoteIds store = .ok rs) :
    ∀ r ∈ rs, threshold ≤ r.similarity ∧ r.noteId ∉ excludeNoteIds ∧ r.similarity ≤ 1 := by
  induction store generalizing rs with
  | nil =>
    obtain rfl : ([] : List VectorSearchResult) = rs := by
      simpa [searchLoop] using h
    intro r hr
    cases hr
  | cons e rest ih =>
    rw [searchLoop] at h
    split at h
    · exact ih h
    · next hex =>
      split at h
      · exact absurd h (by simp)
      · next similarity hcs =>
        split at h
        · exact absurd h (by simp)
        · next results hrest =>
          have hresults := ih hrest
          split at h
          · next hth =>
            obtain rfl :
                (⟨e.noteId, e.notePath, similarity⟩ : VectorSearchResult) :: results = rs := by
              simpa using h
            intro r hr
            rcases List.mem_cons.mp hr with rfl | hr
            · exact ⟨hth, hex, cosineSimilarity_le_one hcs⟩
            · exact hresults r hr
          · obtain rfl : results = rs := by simpa using h
            exact hresults

/-- Post-conditions of a successful `InMemoryVectorStore.search`: thresholds and
exclusions respected, at most `limit` results, sorted by similarity descending. -/
theorem search_ok_spec {store : Store} {queryVector : List ℝ} {options : VectorSearchOptions}
    {rs : List VectorSearchResult} (h : search store queryVector options = .ok rs) :
    (∀ r ∈ rs, options.threshold.getD (3 / 10) ≤ r.similarity ∧
        r.noteId ∉ options.excludeNoteIds.getD [] ∧ r.similarity ≤ 1) ∧
    rs.length ≤ options.limit.getD 10 ∧
    rs.Pairwise (fun a b => b.similarity ≤ a.similarity) := by
  unfold search at h
  cases hloop : searchLoop queryVector (options.threshold.getD (3 / 10))
      (options.excludeNoteIds.getD []) store with
  | error msg => rw [hloop] at h; simp [Except.map] at h
  | ok results =>
    rw [hloop] at h
    simp only [Except.map] at h
    obtain rfl : (List.insertionSort simDescRel results).take (options.limit.getD 10) = rs := by
      simpa using h
    refine ⟨?_, ?_, ?_⟩
    · intro r hr
      exact searchLoop_mem hloop r
        (mem_insertionSort_simDesc.mp (List.mem_of_mem_take hr))
    · simpa using List.length_take_le _ _
    · exact ((List.sorted_insertionSort simDescRel results).sublist
        (List.take_sublist _ _))

end InMemoryVectorStore

/-! ## VaultEmbeddingsVectorStore (src/adapters/embedding/vault-embeddings-vector-store.ts)

The read-through store over the Vault Embeddings snapshot.  Its `cache` map is modelled,
like the in-memory store, as a list of entries in insertion order. -/

namespace VaultEmbeddingsVectorStore

abbrev Store := List EmbeddingVector

/-- The `VaultEmbeddingsVectorStore.store`: a no-op — the Vault Embeddings plugin owns
all writes, and this read-through store only logs the call. -/
def store (s : Store) (_embedding : EmbeddingVector) : Store := s

/-- The `VaultEmbeddingsVectorStore.cosineSimilarity`: returns 0 (instead of throwing) when
the dimensions differ, 0 when `magnitude` is 0, otherwise `dotProduct / magnitude`. -/
noncomputable def cosineSimilarity (a b : List ℝ) : ℝ :=
  if a.length ≠ b.length then 0
  else if Real.sqrt (dotList a a) * Real.sqrt (dotList b b) = 0 then 0
  else dotList a b / (Real.sqrt (dotList a a) * Real.sqrt (dotList b b))

theorem vault_cosineSimilarity_le_one (a b : List ℝ) : cosineSimilarity a b ≤ 1 := by
  unfold cosineSimilarity
  split
  · norm_num
  · split
    · norm_num
    · next hmag => exact dot_div_magnitude_le_one a b hmag

/-- The result-collecting loop of `VaultEmbeddingsVectorStore.search`: skips excluded
entries, skips entries whose dimension differs from the query vector's, keeps entries
whose cosine similarity is at least the threshold. -/
noncomputable def searchLoop (queryVector : List ℝ) (threshold : ℝ)
    (excludeNoteIds : List String) : Store → List VectorSearchResult
  | [] => []
  | e :: rest =>
    if e.noteId ∈ excludeNoteIds then searchLoop queryVector threshold excludeNoteIds rest
    else if queryVector.length ≠ e.vector.length then
      searchLoop queryVector threshold excludeNoteIds rest
    else
      let similarity := cosineSimilarity queryVector e.vector
      if threshold ≤ similarity then
        ⟨e.noteId, e.notePath, similarity⟩ :: searchLoop queryVector threshold excludeNoteIds rest
      else searchLoop queryVector threshold excludeNoteIds rest

/-- The `VaultEmbeddingsVectorStore.search`, with the source's destructuring defaults
`limit = 10`, `threshold = 0.3`, `excludeNoteIds = []`. -/
noncomputable def search (store : Store) (queryVector : List ℝ)
    (options : VectorSearchOptions) : List VectorSearchResult :=
  (List.insertionSort simDescRel
      (searchLoop queryVector (options.threshold.getD (3 / 10))
        (options.excludeNoteIds.getD []) store)).take
    (options.limit.getD 10)

theorem vault_searchLoop_mem {queryVector : List ℝ} {threshold : ℝ}
    {excludeNoteIds : List String} {store : Store} :
    ∀ r ∈ searchLoop queryVector threshold excludeNoteIds store,
      threshold ≤ r.similarity ∧ r.noteId ∉ excludeNoteIds ∧ r.similarity ≤ 1 := by
  induction store with
  | nil => intro r hr; cases hr
  | cons e rest ih =>
    intro r hr
    rw [searchLoop] at hr
    split at hr
    · exact ih r hr
    · next hex =>
      split at hr
      · exact ih r hr
      · dsimp only at hr
        split at hr
        · next hth =>
          rcases List.mem_cons.mp hr with rfl | hr
          · exact ⟨hth, hex, vault_cosineSimilarity_le_one _ _⟩
          · exact ih r hr
        · exact ih r hr

/-- Post-conditions of `VaultEmbeddingsVectorStore.search`: thresholds and exclusions
respected, at most `limit` results, sorted by similarity descending. -/
theorem search_spec (store : Store) (queryVector : List ℝ) (options : VectorSearchOptions) :
    (∀ r ∈ search store queryVector options,
      options.threshold.getD (3 / 10) ≤ r.similarity ∧
        r.noteId ∉ options.excludeNoteIds.getD [] ∧ r.similarity ≤ 1) ∧
    (search store queryVector options).length ≤ options.limit.getD 10 ∧
    (search store queryVector options).Pairwise (fun a b => b.similarity ≤ a.similarity) := by
  refine ⟨?_, ?_, ?_⟩
  · intro r hr
    exact vault_searchLoop_mem r (mem_insertionSort_simDesc.mp (List.mem_of_mem_take hr))
  · simpa [search] using List.length_take_le _ _
  · exact ((List.sorted_insertionSort simDescRel _).sublist (List.take_sublist _ _))

/-- The dimension-mismatch skip, as an equation: searching is the same as searching the
sub-store of entries whose dimension matches the query vector's. -/
theorem searchLoop_filter_dims (queryVector : List ℝ) (threshold : ℝ)
    (excludeNoteIds : List String) (store : Store) :
    searchLoop queryVector threshold excludeNoteIds store =
      searchLoop queryVector threshold excludeNoteIds
        (store.filter (fun e => queryVector.length = e.vector.length)) := by
  induction store with
  | nil => rfl
  | cons e rest ih =>
    by_cases hdim : queryVector.length = e.vector.length
    · rw [List.filter_cons_of_pos (by simpa using hdim), searchLoop, searchLoop]
      have hd : ¬queryVector.length ≠ e.vector.length := by simpa using hdim
      by_cases hex : e.noteId ∈ excludeNoteIds
      · simp only [if_pos hex]
        exact ih
      · simp only [if_neg hex, if_neg hd]
        rw [ih]
    · rw [List.filter_cons_of_neg (by simpa using hdim), searchLoop]
      by_cases hex : e.noteId ∈ excludeNoteIds
      · simp only [if_pos hex]
        exact ih
      · simp only [if_neg hex, if_pos (show queryVector.length ≠ e.vector.length from hdim)]
        exact ih

end VaultEmbeddingsVectorStore

/-! ## EmbeddingService (src/core/application/services/embedding-service.ts)

The service wrapping the injected embedding provider and vector store.  The repository
holds two versions of this class: the embedding-managing one (concatenated into
`embedding-provider.interface.ts`, the version `ClusterNotesUseCase` calls `embedNote`
on) and a later query-side one for the read-through vault store.  Their
`findSimilarByNoteId` bodies are identical up to a log line; `embedNote` below is the
embedding-managing version's. -/

namespace EmbeddingService

/-- The `EmbedNoteInput` of the embedding service. -/
structure EmbedNoteInput where
  noteId : String
  notePath : String
  content : String

/-- The `EmbeddingService.embedNote`: if the store already holds an embedding for the
note (`vectorStore.get(noteId)` is truthy), return without embedding; otherwise embed
the content and hand the new vector to the injected vector store's `store` method
(`storeOp` — `InMemoryVectorStore.store` overwrites-or-appends, the read-through
`VaultEmbeddingsVectorStore.store` is a no-op).  The stored record's debug `content`
field (the first 500 characters of the content) is dropped because the model's
`EmbeddingVector` omits that field. -/
def embedNote (storeOp : List EmbeddingVector → EmbeddingVector → List EmbeddingVector)
    (embed : String → List ℝ) (store : List EmbeddingVector)
    (input : EmbedNoteInput) : List EmbeddingVector :=
  if (store.find? (fun e => e.noteId = input.noteId)).isSome then store
  else storeOp store ⟨input.noteId, input.notePath, embed input.content⟩

/-- The `EmbeddingService.findSimilarByNoteId`: looks up the note's own stored embedding
(`vectorStore.get`), returns `[]` when absent, and otherwise searches the store with the
note's own id appended to the caller's exclusion list. -/
noncomputable def findSimilarByNoteId (store : VaultEmbeddingsVectorStore.Store)
    (noteId : String) (options : VectorSearchOptions) : List VectorSearchResult :=
  match store.find? (fun e => e.noteId = noteId) with
  | none => []
  | some embedding =>
    VaultEmbeddingsVectorStore.search store embedding.vector
      { options with excludeNoteIds := some (options.excludeNoteIds.getD [] ++ [noteId]) }

/-- Every result of `findSimilarByNoteId` clears the (defaulted) threshold, has
similarity at most 1, is not the query note itself, and is not in the caller's
exclusion list. -/
theorem findSimilarByNoteId_mem {store : VaultEmbeddingsVectorStore.Store}
    {noteId : String} {options : VectorSearchOptions} :
    ∀ r ∈ findSimilarByNoteId store noteId options,
      options.threshold.getD (3 / 10) ≤ r.similarity ∧ r.similarity ≤ 1 ∧
        r.noteId ≠ noteId ∧ r.noteId ∉ options.excludeNoteIds.getD [] := by
  intro r hr
  unfold findSimilarByNoteId at hr
  split at hr
  · cases hr
  · next embedding _ =>
    have hspec := (VaultEmbeddingsVectorStore.search_spec store embedding.vector
      { options with
        excludeNoteIds := some (options.excludeNoteIds.getD [] ++ [noteId]) }).1 r hr
    refine ⟨hspec.1, hspec.2.2, ?_, ?_⟩
    · intro hid
      exact hspec.2.1 (by simp [hid])
    · intro hid
      exact hspec.2.1 (by simp [hid])

end EmbeddingService

/-! ## ClusterNotesUseCase (src/core/application/use-cases/cluster-notes.ts) -/

/-- The `NoteContent` from `synthesis-generator.interface.ts`. -/
structure NoteContent where
  noteId : String
  notePath : String
  title : String
  content : String
  tags : List String
deriving DecidableEq, Repr

/-- The `source` discriminator of `NoteCluster`. -/
inductive ClusterSource
  | tag
  | folder
  | similarity
  | manual
deriving DecidableEq, Repr

/-- The `ClusterMember` from `note-cluster.ts`. -/
structure ClusterMember where
  noteId : String
  notePath : String
  title : String
  similarity : ℝ

/-- The `NoteCluster` from `note-cluster.ts`.  The `id` and `createdAt` fields are a fresh
random id and a fresh timestamp and the optional `centroidVector` is not set on any path
modelled here; they are omitted. -/
structure NoteCluster where
  name : String
  members : List ClusterMember
  coherenceScore : ℝ
  source : ClusterSource

namespace ClusterNotesUseCase

/-- The `isExcludedPath`: some configured excluded folder prefixes the note path (with a
trailing slash appended). -/
def isExcludedPath (excludedFolders : List String) (notePath : String) : Bool :=
  excludedFolders.any (fun excluded => notePath.startsWith (excluded ++ "/"))

/-- The candidate neighbor list of `autoCluster` before truncation: the
`findSimilarByNoteId` query with the caller's `threshold` and `limit = maxSize * 2`,
with results under excluded folders filtered out. -/
noncomputable def autoClusterCandidates (excludedFolders : List String)
    (store : List EmbeddingVector) (seedNoteId : String) (threshold : ℝ)
    (maxSize : ℕ) : List VectorSearchResult :=
  (EmbeddingService.findSimilarByNoteId store seedNoteId
      ⟨some (maxSize * 2), some threshold, none⟩).filter
    (fun r => !(isExcludedPath excludedFolders r.notePath))

/-- The `similarNotes` list of `autoCluster`: the candidates truncated to
`maxSize - 1` entries.  The store searched is the one obtained after the seed's
embedding-ensure step. -/
noncomputable def autoClusterSimilarNotes
    (storeOp : List EmbeddingVector → EmbeddingVector → List EmbeddingVector)
    (embed : String → List ℝ)
    (store : List EmbeddingVector) (excludedFolders : List String)
    (seedNote : NoteContent) (seedNoteId : String) (threshold : ℝ)
    (maxSize : ℕ) : List VectorSearchResult :=
  (autoClusterCandidates excludedFolders
      (EmbeddingService.embedNote storeOp embed store
        ⟨seedNote.noteId, seedNote.notePath, seedNote.title ++ "\n\n" ++ seedNote.content⟩)
      seedNoteId threshold maxSize).take (maxSize - 1)

/-- The member list of `autoCluster` on its non-empty path: the seed with similarity 1.0
followed by the similar notes with their query scores (the source sets each neighbor
member's `title` to its noteId, with a TODO to use the real title). -/
noncomputable def autoClusterMembers
    (storeOp : List EmbeddingVector → EmbeddingVector → List EmbeddingVector)
    (embed : String → List ℝ)
    (store : List EmbeddingVector) (excludedFolders : List String)
    (seedNote : NoteContent) (seedNoteId : String) (threshold : ℝ)
    (maxSize : ℕ) : List ClusterMember :=
  ⟨seedNote.noteId, seedNote.notePath, seedNote.title, 1⟩ ::
    (autoClusterSimilarNotes storeOp embed store excludedFolders seedNote seedNoteId
        threshold maxSize).map
      (fun r => ⟨r.noteId, r.notePath, r.noteId, r.similarity⟩)

/-- The coherence score of `autoCluster`: the mean similarity of the non-seed members,
or 1.0 for a single-member cluster. -/
noncomputable def autoClusterCoherence (members : List ClusterMember) : ℝ :=
  if 1 < members.length then
    (members.drop 1).foldl (fun sum m => sum + m.similarity) 0 /
      ((members.length - 1 : ℕ) : ℝ)
  else 1

/-- The `ClusterNotesUseCase.autoCluster`.  The body also fetches each similar note's full
content via `getNoteByPath`; that fetched list does not feed into the returned cluster
and is omitted.  `store` is the vector store backing the embedding service and
`storeOp` its injected `store` method (see `EmbeddingService.embedNote`). -/
noncomputable def autoCluster
    (storeOp : List EmbeddingVector → EmbeddingVector → List EmbeddingVector)
    (embed : String → List ℝ) (repo : List NoteContent)
    (store : List EmbeddingVector) (excludedFolders : List String) (seedNoteId : String)
    (threshold : ℝ := 1 / 2) (maxSize : ℕ := 20) : NoteCluster :=
  match repo.find? (fun n => n.noteId = seedNoteId) with
  | none => ⟨"Unknown", [], 0, .similarity⟩
  | some seedNote =>
    if isExcludedPath excludedFolders seedNote.notePath then ⟨"Unknown", [], 0, .similarity⟩
    else
      let members := autoClusterMembers storeOp embed store excludedFolders seedNote
        seedNoteId threshold maxSize
      ⟨"Similar to: " ++ seedNote.title, members, autoClusterCoherence members, .similarity⟩

/-- The accumulator update of the inner loop of `calculateCoherence`: a returned
neighbor that is itself one of `notes` contributes its similarity and one pair. -/
noncomputable def coherenceAccum (notes : List NoteContent) (acc2 : ℝ × ℕ)
    (similar : VectorSearchResult) : ℝ × ℕ :=
  if notes.any (fun n => n.noteId = similar.noteId) then
    (acc2.1 + similar.similarity, acc2.2 + 1)
  else acc2

/-- One member's accumulation step of `calculateCoherence`: query up to
`notes.length - 1` neighbors of the member (no threshold passed) and accumulate the
similarity of every returned neighbor that is itself a member of `notes`. -/
noncomputable def coherenceStep (store : List EmbeddingVector) (notes : List NoteContent)
    (acc : ℝ × ℕ) (note : NoteContent) : ℝ × ℕ :=
  (EmbeddingService.findSimilarByNoteId store note.noteId
      ⟨some (notes.length - 1), none, none⟩).foldl (coherenceAccum notes) acc

/-- The `totalSimilarity` / `pairCount` accumulators of `calculateCoherence` after the
full double loop. -/
noncomputable def coherencePairs (store : List EmbeddingVector)
    (notes : List NoteContent) : ℝ × ℕ :=
  notes.foldl (coherenceStep store notes) (0, 0)

/-- The `ClusterNotesUseCase.calculateCoherence`. -/
noncomputable def calculateCoherence (store : List EmbeddingVector)
    (notes : List NoteContent) : ℝ :=
  if notes.length < 2 then 1
  else if 0 < (coherencePairs store notes).2 then
    (coherencePairs store notes).1 / ((coherencePairs store notes).2 : ℝ)
  else 0

end ClusterNotesUseCase

/-! ## Bounds for the coherence computations -/

namespace ClusterNotesUseCase

theorem coherenceAccum_foldl_invariant (notes : List NoteContent)
    (l : List VectorSearchResult)
    (hl : ∀ r ∈ l, 0 ≤ r.similarity ∧ r.similarity ≤ 1) :
    ∀ acc : ℝ × ℕ, 0 ≤ acc.1 → acc.1 ≤ (acc.2 : ℝ) →
      0 ≤ (l.foldl (coherenceAccum notes) acc).1 ∧
        (l.foldl (coherenceAccum notes) acc).1 ≤ ((l.foldl (coherenceAccum notes) acc).2 : ℝ) := by
  induction l with
  | nil => intro acc h0 h1; exact ⟨h0, h1⟩
  | cons r rest ih =>
    intro acc h0 h1
    have hr := hl r (List.mem_cons_self r rest)
    have hrest : ∀ x ∈ rest, 0 ≤ x.similarity ∧ x.similarity ≤ 1 :=
      fun x hx => hl x (List.mem_cons_of_mem r hx)
    rw [List.foldl_cons]
    unfold coherenceAccum
    split
    · refine ih hrest (acc.1 + r.similarity, acc.2 + 1) ?_ ?_
      · show 0 ≤ acc.1 + r.similarity
        linarith [hr.1]
      · show acc.1 + r.similarity ≤ ((acc.2 + 1 : ℕ) : ℝ)
        push_cast
        linarith [hr.2]
    · exact ih hrest acc h0 h1

theorem coherenceStep_invariant (store : List EmbeddingVector) (notes : List NoteContent)
    (acc : ℝ × ℕ) (note : NoteContent) (h0 : 0 ≤ acc.1) (h1 : acc.1 ≤ (acc.2 : ℝ)) :
    0 ≤ (coherenceStep store notes acc note).1 ∧
      (coherenceStep store notes acc note).1 ≤ ((coherenceStep store notes acc note).2 : ℝ) := by
  unfold coherenceStep
  refine coherenceAccum_foldl_invariant notes _ ?_ acc h0 h1
  intro r hr
  have := EmbeddingService.findSimilarByNoteId_mem r hr
  refine ⟨?_, this.2.1⟩
  have h3 : (3 : ℝ) / 10 ≤ r.similarity := by simpa using this.1
  linarith

theorem coherencePairs_invariant (store : List EmbeddingVector) (notes : List NoteContent) :
    0 ≤ (coherencePairs store notes).1 ∧
      (coherencePairs store notes).1 ≤ ((coherencePairs store notes).2 : ℝ) := by
  unfold coherencePairs
  suffices h : ∀ (l : List NoteContent) (acc : ℝ × ℕ), 0 ≤ acc.1 → acc.1 ≤ (acc.2 : ℝ) →
      0 ≤ (l.foldl (coherenceStep store notes) acc).1 ∧
        (l.foldl (coherenceStep store notes) acc).1 ≤
          ((l.foldl (coherenceStep store notes) acc).2 : ℝ) by
    exact h notes (0, 0) le_rfl (by simp)
  intro l
  induction l with
  | nil => intro acc h0 h1; exact ⟨h0, h1⟩
  | cons note rest ih =>
    intro acc h0 h1
    rw [List.foldl_cons]
    have hstep := coherenceStep_invariant store notes acc note h0 h1
    exact ih _ hstep.1 hstep.2

theorem calculateCoherence_bounds (store : List EmbeddingVector) (notes : List NoteContent) :
    0 ≤ calculateCoherence store notes ∧ calculateCoherence store notes ≤ 1 := by
  unfold calculateCoherence
  split
  · norm_num
  · have hinv := coherencePairs_invariant store notes
    split
    · next hpos =>
      have hc : (0 : ℝ) < ((coherencePairs store notes).2 : ℝ) := by exact_mod_cast hpos
      constructor
      · exact div_nonneg hinv.1 hc.le
      · rw [div_le_one hc]
        exact hinv.2
    · norm_num

end ClusterNotesUseCase

namespace ClusterNotesUseCase

theorem foldl_add_similarity (l : List ClusterMember) (init : ℝ) :
    l.foldl (fun sum m => sum + m.similarity) init =
      init + (l.map (fun m => m.similarity)).sum := by
  induction l generalizing init with
  | nil => simp
  | cons m rest ih =>
    rw [List.foldl_cons, ih, List.map_cons, List.sum_cons]
    ring

theorem autoClusterSimilarNotes_mem
    (storeOp : List EmbeddingVector → EmbeddingVector → List EmbeddingVector)
    (embed : String → List ℝ)
    (store : List EmbeddingVector) (excludedFolders : List String)
    (seedNote : NoteContent) (seedNoteId : String) (threshold : ℝ) (maxSize : ℕ) :
    ∀ r ∈ autoClusterSimilarNotes storeOp embed store excludedFolders seedNote seedNoteId
        threshold maxSize,
      threshold ≤ r.similarity ∧ r.similarity ≤ 1 := by
  intro r hr
  unfold autoClusterSimilarNotes autoClusterCandidates at hr
  have hr1 := List.mem_of_mem_take hr
  have hr2 := List.mem_of_mem_filter hr1
  have hmem := EmbeddingService.findSimilarByNoteId_mem r hr2
  exact ⟨by simpa using hmem.1, hmem.2.1⟩

theorem autoClusterMembers_length
    (storeOp : List EmbeddingVector → EmbeddingVector → List EmbeddingVector)
    (embed : String → List ℝ)
    (store : List EmbeddingVector) (excludedFolders : List String)
    (seedNote : NoteContent) (seedNoteId : String) (threshold : ℝ) (maxSize : ℕ) :
    (autoClusterMembers storeOp embed store excludedFolders seedNote seedNoteId threshold
        maxSize).length =
      1 + min (maxSize - 1)
        (autoClusterCandidates excludedFolders
          (EmbeddingService.embedNote storeOp embed store
            ⟨seedNote.noteId, seedNote.notePath,
              seedNote.title ++ "\n\n" ++ seedNote.content⟩)
          seedNoteId threshold maxSize).length := by
  simp [autoClusterMembers, autoClusterSimilarNotes, List.length_take, Nat.add_comm]

theorem autoClusterCoherence_bounds (members : List ClusterMember)
    (h : ∀ m ∈ members.drop 1, 0 ≤ m.similarity ∧ m.similarity ≤ 1) :
    0 ≤ autoClusterCoherence members ∧ autoClusterCoherence members ≤ 1 := by
  unfold autoClusterCoherence
  split
  · next hlen =>
    rw [foldl_add_similarity, zero_add]
    have hnn : 0 ≤ ((members.drop 1).map (fun m => m.similarity)).sum := by
      refine List.sum_nonneg ?_
      intro x hx
      obtain ⟨m, hm, rfl⟩ := List.mem_map.mp hx
      exact (h m hm).1
    have hub : ((members.drop 1).map (fun m => m.similarity)).sum ≤
        (((members.drop 1).map (fun m => m.similarity)).length : ℝ) := by
      have hb := List.sum_le_card_nsmul ((members.drop 1).map (fun m => m.similarity)) 1 ?_
      · simpa [nsmul_eq_mul] using hb
      · intro x hx
        obtain ⟨m, hm, rfl⟩ := List.mem_map.mp hx
        exact (h m hm).2
    have hleneq : ((members.drop 1).map (fun m => m.similarity)).length =
        members.length - 1 := by
      simp [List.length_drop]
    have hcast : (0 : ℝ) < ((members.length - 1 : ℕ) : ℝ) := by
      have : 0 < members.length - 1 := by omega
      exact_mod_cast this
    constructor
    · exact div_nonneg hnn hcast.le
    · rw [div_le_one hcast]
      calc ((members.drop 1).map (fun m => m.similarity)).sum ≤
          (((members.drop 1).map (fun m => m.similarity)).length : ℝ) := hub
        _ = ((members.length - 1 : ℕ) : ℝ) := by rw [hleneq]
  · norm_num

theorem autoClusterMembers_drop_mem
    (storeOp : List EmbeddingVector → EmbeddingVector → List EmbeddingVector)
    (embed : String → List ℝ)
    (store : List EmbeddingVector) (excludedFolders : List String)
    (seedNote : NoteContent) (seedNoteId : String) (threshold : ℝ) (maxSize : ℕ)
    (ht : 0 ≤ threshold) :
    ∀ m ∈ (autoClusterMembers storeOp embed store excludedFolders seedNote seedNoteId
        threshold maxSize).drop 1,
      0 ≤ m.similarity ∧ m.similarity ≤ 1 := by
  intro m hm
  unfold autoClusterMembers at hm
  rw [List.drop_one, List.tail_cons] at hm
  obtain ⟨r, hr, rfl⟩ := List.mem_map.mp hm
  have hb := autoClusterSimilarNotes_mem storeOp embed store excludedFolders seedNote
    seedNoteId threshold maxSize r hr
  exact ⟨le_trans ht hb.1, hb.2⟩

/-- Coherence of every cluster returned by `autoCluster` is in `[0, 1]` whenever the
caller's threshold is nonnegative (the source calls it with `0.5`). -/
theorem autoCluster_coherence_bounds
    (storeOp : List EmbeddingVector → EmbeddingVector → List EmbeddingVector)
    (embed : String → List ℝ) (repo : List NoteContent)
    (store : List EmbeddingVector) (excludedFolders : List String) (seedNoteId : String)
    (threshold : ℝ) (maxSize : ℕ) (ht : 0 ≤ threshold) :
    0 ≤ (autoCluster storeOp embed repo store excludedFolders seedNoteId threshold
        maxSize).coherenceScore ∧
      (autoCluster storeOp embed repo store excludedFolders seedNoteId threshold
        maxSize).coherenceScore ≤ 1 := by
  unfold autoCluster
  split
  · norm_num
  · next seedNote _ =>
    split
    · norm_num
    · exact autoClusterCoherence_bounds _
        (autoClusterMembers_drop_mem storeOp embed store excludedFolders seedNote
          seedNoteId threshold maxSize ht)

theorem autoCluster_members_le
    (storeOp : List EmbeddingVector → EmbeddingVector → List EmbeddingVector)
    (embed : String → List ℝ) (repo : List NoteContent)
    (store : List EmbeddingVector) (excludedFolders : List String) (seedNoteId : String)
    (threshold : ℝ) (maxSize : ℕ) (hm : 1 ≤ maxSize) :
    (autoCluster storeOp embed repo store excludedFolders seedNoteId threshold
        maxSize).members.length ≤ maxSize := by
  unfold autoCluster
  split
  · simpa using hm
  · next seedNote _ =>
    split
    · simpa using hm
    · show (autoClusterMembers _ _ _ _ _ _ _ _).length ≤ maxSize
      rw [autoClusterMembers_length]
      omega

theorem autoCluster_members_exact
    (storeOp : List EmbeddingVector → EmbeddingVector → List EmbeddingVector)
    (embed : String → List ℝ) (repo : List NoteContent)
    (store : List EmbeddingVector) (excludedFolders : List String) (seedNoteId : String)
    (threshold : ℝ) (maxSize : ℕ) (seedNote : NoteContent) (hm : 1 ≤ maxSize)
    (hfound : repo.find? (fun n => n.noteId = seedNoteId) = some seedNote)
    (hex : isExcludedPath excludedFolders seedNote.notePath = false)
    (hcand : maxSize - 1 ≤
      (autoClusterCandidates excludedFolders
        (EmbeddingService.embedNote storeOp embed store
          ⟨seedNote.noteId, seedNote.notePath,
            seedNote.title ++ "\n\n" ++ seedNote.content⟩)
        seedNoteId threshold maxSize).length) :
    (autoCluster storeOp embed repo store excludedFolders seedNoteId threshold
        maxSize).members.length = maxSize := by
  unfold autoCluster
  rw [hfound]
  dsimp only
  rw [if_neg (by simp [hex])]
  show (autoClusterMembers _ _ _ _ _ _ _ _).length = maxSize
  rw [autoClusterMembers_length]
  omega

end ClusterNotesUseCase

/-! ## Synthesis entities (src/core/domain/entities) -/

/-- The `SynthesisType` from `synthesis-request.ts`. -/
inductive SynthesisType
  | framework
  | summary
  | comparison
  | timeline
deriving DecidableEq, Repr

/-- The output language option (`'ko' | 'en'`). -/
inductive OutputLanguage
  | ko
  | en
deriving DecidableEq, Repr

/-- The `SynthesisOptions` from `synthesis-request.ts`. -/
structure SynthesisOptions where
  includeBacklinks : Bool
  autoSuggestTags : Bool
  language : OutputLanguage
deriving DecidableEq, Repr

/-- The `Partial<SynthesisOptions>`: the caller-supplied overrides. -/
structure PartialSynthesisOptions where
  includeBacklinks : Option Bool := none
  autoSuggestTags : Option Bool := none
  language : Option OutputLanguage := none
deriving DecidableEq, Repr

/-- The `DEFAULT_SYNTHESIS_OPTIONS`. -/
def DEFAULT_SYNTHESIS_OPTIONS : SynthesisOptions :=
  { includeBacklinks := true, autoSuggestTags := true, language := .ko }

/-- The spread `{ ...DEFAULT_SYNTHESIS_OPTIONS, ...options }`. -/
def mergeSynthesisOptions (options : PartialSynthesisOptions) : SynthesisOptions :=
  { includeBacklinks := options.includeBacklinks.getD DEFAULT_SYNTHESIS_OPTIONS.includeBacklinks
    autoSuggestTags := options.autoSuggestTags.getD DEFAULT_SYNTHESIS_OPTIONS.autoSuggestTags
    language := options.language.getD DEFAULT_SYNTHESIS_OPTIONS.language }

/-- The `SynthesisRequest` from `synthesis-request.ts` (`id` and `createdAt` are a fresh
random id and a fresh timestamp; omitted). -/
structure SynthesisRequest where
  sourceNoteIds : List String
  targetTitle : Option String := none
  synthesisType : SynthesisType
  options : SynthesisOptions
deriving DecidableEq, Repr

/-- The `createSynthesisRequest`. -/
def createSynthesisRequest (sourceNoteIds : List String)
    (synthesisType : SynthesisType := .framework)
    (options : PartialSynthesisOptions := {}) : SynthesisRequest :=
  { sourceNoteIds := sourceNoteIds
    synthesisType := synthesisType
    options := mergeSynthesisOptions options }

/-- The `SynthesisResult` from `synthesis-result.ts` (`id`, `requestId` and `createdAt` are
fresh values; omitted — consequently the frontmatter model below omits the `created:`
line, which carries only that timestamp). -/
structure SynthesisResult where
  title : String
  content : String
  sourceNoteLinks : List String
  suggestedTags : List String
  synthesisType : SynthesisType
deriving DecidableEq, Repr

/-- The serialized name of a synthesis type (its TypeScript string-literal value). -/
def synthesisTypeName : SynthesisType → String
  | .framework => "framework"
  | .summary => "summary"
  | .comparison => "comparison"
  | .timeline => "timeline"

/-! ## SynthesizeNotesUseCase (src/core/application/use-cases/synthesize-notes.ts) -/

/-- The `SynthesizeNotesInput`. -/
structure SynthesizeNotesInput where
  cluster : NoteCluster
  synthesisType : SynthesisType
  targetTitle : Option String := none
  options : PartialSynthesisOptions := {}

/-- The `SynthesizeNotesOutput`. -/
structure SynthesizeNotesOutput where
  result : SynthesisResult
  request : SynthesisRequest

namespace SynthesizeNotesUseCase

/-- The type-label table of `generateDefaultTitle`. -/
def typeLabel : SynthesisType → String
  | .framework => "종합 프레임워크"
  | .summary => "요약"
  | .comparison => "비교 분석"
  | .timeline => "타임라인"

/-- The `generateDefaultTitle`. -/
def generateDefaultTitle (cluster : NoteCluster) (synthesisType : SynthesisType) : String :=
  cluster.name ++ " - " ++ typeLabel synthesisType

/-- The `fetchNoteContents`: resolve each id via the note repository (`getNote`, modelled as
`find?` over the repository's notes); unresolved ids are dropped. -/
def fetchNoteContents (repo : List NoteContent) (noteIds : List String) : List NoteContent :=
  noteIds.filterMap (fun noteId => repo.find? (fun n => n.noteId = noteId))

/-- The `SynthesizeNotesUseCase.execute`.  The second component of the returned pair records
every `noteRepository.createNote` call made (path and content); `execute` performs none —
file creation happens only in `saveResult`.  `generate` is the external
`ISynthesisGenerator.generate`, whose failure is an `.error`. -/
def execute (generate : SynthesisRequest → List NoteContent → Except String SynthesisResult)
    (repo : List NoteContent) (input : SynthesizeNotesInput) :
    Except String SynthesizeNotesOutput × List (String × String) :=
  let noteIds := input.cluster.members.map (fun m => m.noteId)
  if noteIds.isEmpty then (.error "No notes to synthesize", [])
  else
    let request0 := createSynthesisRequest noteIds input.synthesisType input.options
    let request := { request0 with
      targetTitle := some (match input.targetTitle with
        | some title =>
          if title ≠ "" then title
          else generateDefaultTitle input.cluster input.synthesisType
        | none => generateDefaultTitle input.cluster input.synthesisType) }
    let noteContents := fetchNoteContents repo noteIds
    if noteContents.isEmpty then (.error "Could not fetch any note contents", [])
    else
      match generate request noteContents with
      | .error msg => (.error msg, [])
      | .ok result => (.ok ⟨result, request⟩, [])

/-- The characters stripped by `sanitizeFileName` (the regex `[\\/:*?"<>|]`). -/
def forbiddenFileNameChars : List Char := ['\\', '/', ':', '*', '?', '"', '<', '>', '|']

/-- The `\s+ → single space` replacement of `sanitizeFileName` (JavaScript `\s` is
modelled by `Char.isWhitespace`). -/
def collapseWhitespace : List Char → List Char
  | [] => []
  | c :: rest =>
    if c.isWhitespace then ' ' :: collapseWhitespace (rest.dropWhile Char.isWhitespace)
    else c :: collapseWhitespace rest
termination_by l => l.length
decreasing_by
  · simp only [List.length_cons]
    exact Nat.lt_succ_of_le (List.dropWhile_suffix _).sublist.length_le
  · simp

/-- The `sanitizeFileName`: strip forbidden characters, collapse whitespace runs, trim, cap
at 100 characters. -/
def sanitizeFileName (title : String) : String :=
  String.mk
    ((String.trim
        (String.mk
          (collapseWhitespace (title.data.filter (fun c => !(c ∈ forbiddenFileNameChars)))))).data.take
      100)

/-- The `generateFrontmatter` (without the `created:` timestamp line, see `SynthesisResult`). -/
def generateFrontmatter (result : SynthesisResult) : String :=
  let lines := ["---", "title: \"" ++ result.title ++ "\"", "type: synthesis",
      "synthesis_type: " ++ synthesisTypeName result.synthesisType, "sources:"] ++
    result.sourceNoteLinks.map (fun link => "  - \"" ++ link ++ "\"")
  let lines := if result.suggestedTags.length > 0 then
      lines ++ ["tags:"] ++ result.suggestedTags.map (fun tag => "  - \"" ++ tag ++ "\"")
    else lines
  String.intercalate "\n" (lines ++ ["---", ""])

/-- The `SynthesizeNotesUseCase.saveResult`: builds the file path and content and calls
`createNote` once; the write is recorded in the second component. -/
def saveResult (result : SynthesisResult) (folderPath : String) :
    String × List (String × String) :=
  let fileName := sanitizeFileName result.title
  let filePath := folderPath ++ "/" ++ fileName ++ ".md"
  let content := generateFrontmatter result ++ "\n" ++ result.content
  (filePath, [(filePath, content)])

end SynthesizeNotesUseCase

/-! ## SuggestSynthesisUseCase (src/core/application/use-cases/suggest-synthesis.ts) -/

/-- The `priority` union `'high' | 'medium' | 'low'`. -/
inductive SuggestionPriority
  | high
  | medium
  | low
deriving DecidableEq, Repr

/-- The `SynthesisSuggestion`. -/
structure SynthesisSuggestion where
  cluster : NoteCluster
  reason : String
  priority : SuggestionPriority
  suggestedType : SynthesisType

namespace SuggestSynthesisUseCase

/-- The `priorityOrder` table of `sortAndLimit`. -/
def priorityOrder : SuggestionPriority → ℕ
  | .high => 3
  | .medium => 2
  | .low => 1

/-- The "may come before" relation of the comparator of `sortAndLimit`: higher
priority first, ties broken by coherence descending. -/
def suggestionBefore (a b : SynthesisSuggestion) : Prop :=
  priorityOrder b.priority < priorityOrder a.priority ∨
    (priorityOrder b.priority = priorityOrder a.priority ∧
      b.cluster.coherenceScore ≤ a.cluster.coherenceScore)

noncomputable instance : DecidableRel suggestionBefore := fun _ _ => by
  unfold suggestionBefore
  infer_instance

instance : IsTotal SynthesisSuggestion suggestionBefore where
  total a b := by
    unfold suggestionBefore
    rcases Nat.lt_trichotomy (priorityOrder a.priority) (priorityOrder b.priority) with h | h | h
    · exact Or.inr (Or.inl h)
    · rcases le_total b.cluster.coherenceScore a.cluster.coherenceScore with hc | hc
      · exact Or.inl (Or.inr ⟨h.symm, hc⟩)
      · exact Or.inr (Or.inr ⟨h, hc⟩)
    · exact Or.inl (Or.inl h)

instance : IsTrans SynthesisSuggestion suggestionBefore where
  trans a b c hab hbc := by
    unfold suggestionBefore at *
    rcases hab with h1 | ⟨h1, hc1⟩ <;> rcases hbc with h2 | ⟨h2, hc2⟩
    · exact Or.inl (h2.trans h1)
    · exact Or.inl (lt_of_le_of_lt (le_of_eq h2) h1)
    · exact Or.inl (lt_of_lt_of_le h2 (le_of_eq h1))
    · exact Or.inr ⟨h2.trans h1, hc2.trans hc1⟩

/-- The `sortAndLimit`: sort by the comparator, truncate to `maxSuggestions`. -/
noncomputable def sortAndLimit (suggestions : List SynthesisSuggestion)
    (maxSuggestions : ℕ) : List SynthesisSuggestion :=
  (List.insertionSort suggestionBefore suggestions).take maxSuggestions

/-- The member-noteId list of a suggestion's cluster. -/
def memberNoteIds (suggestion : SynthesisSuggestion) : List String :=
  suggestion.cluster.members.map (fun m => m.noteId)

/-- Lexicographic code-unit comparison of character lists — the comparator
`Array.prototype.sort()` applies to strings. -/
def charListLe : List Char → List Char → Bool
  | [], _ => true
  | _ :: _, [] => false
  | c :: cs, d :: ds =>
    if c < d then true
    else if d < c then false
    else charListLe cs ds

/-- The string comparison used by the default sort. -/
def stringLe (a b : String) : Bool := charListLe a.data b.data

/-- The `stringLe` as a relation, for the sort. -/
def stringLeRel (a b : String) : Prop := stringLe a b = true

instance : DecidableRel stringLeRel := fun a b => instDecidableEqBool (stringLe a b) true

theorem charListLe_total : ∀ x y : List Char, charListLe x y = true ∨ charListLe y x = true := by
  intro x
  induction x with
  | nil => intro y; left; rfl
  | cons c cs ih =>
    intro y
    cases y with
    | nil => right; rfl
    | cons d ds =>
      rw [charListLe, charListLe]
      rcases lt_trichotomy c d with h | h | h
      · left
        simp [h]
      · subst h
        simp only [lt_irrefl, if_false]
        exact ih ds
      · right
        simp [h]

theorem charListLe_trans :
    ∀ x y z : List Char, charListLe x y = true → charListLe y z = true →
      charListLe x z = true := by
  intro x
  induction x with
  | nil => intro y z _ _; rfl
  | cons c cs ih =>
    intro y z hxy hyz
    cases y with
    | nil => simp [charListLe] at hxy
    | cons d ds =>
      cases z with
      | nil => simp [charListLe] at hyz
      | cons e es =>
        rw [charListLe] at hxy hyz ⊢
        by_cases hcd : c < d
        · by_cases hde : d < e
          · rw [if_pos (hcd.trans hde)]
          · by_cases hed : e < d
            · rw [if_neg hde, if_pos hed] at hyz
              exact absurd hyz (by simp)
            · have hde' : d = e := le_antisymm (not_lt.mp hed) (not_lt.mp hde)
              rw [if_pos (hde' ▸ hcd)]
        · by_cases hdc : d < c
          · rw [if_neg hcd, if_pos hdc] at hxy
            exact absurd hxy (by simp)
          · have hcd' : c = d := le_antisymm (not_lt.mp hdc) (not_lt.mp hcd)
            subst hcd'
            rw [if_neg hcd, if_neg hdc] at hxy
            by_cases hce : c < e
            · rw [if_pos hce]
            · by_cases hec : e < c
              · rw [if_neg hce, if_pos hec] at hyz
                exact absurd hyz (by simp)
              · rw [if_neg hce, if_neg hec] at hyz ⊢
                exact ih ds es hxy hyz

theorem charListLe_antisymm :
    ∀ x y : List Char, charListLe x y = true → charListLe y x = true → x = y := by
  intro x
  induction x with
  | nil =>
    intro y _ h2
    cases y with
    | nil => rfl
    | cons d ds => simp [charListLe] at h2
  | cons c cs ih =>
    intro y h1 h2
    cases y with
    | nil => simp [charListLe] at h1
    | cons d ds =>
      rw [charListLe] at h1 h2
      by_cases hcd : c < d
      · rw [if_neg (asymm hcd), if_pos hcd] at h2
        exact absurd h2 (by simp)
      · by_cases hdc : d < c
        · rw [if_neg hcd, if_pos hdc] at h1
          exact absurd h1 (by simp)
        · have heq : c = d := le_antisymm (not_lt.mp hdc) (not_lt.mp hcd)
          subst heq
          rw [if_neg hcd, if_neg hdc] at h1 h2
          rw [ih ds h1 h2]

instance : IsTotal String stringLeRel :=
  ⟨fun a b => charListLe_total a.data b.data⟩

instance : IsTrans String stringLeRel :=
  ⟨fun a b c => charListLe_trans a.data b.data c.data⟩

instance : IsAntisymm String stringLeRel :=
  ⟨fun a b h1 h2 => String.ext (charListLe_antisymm a.data b.data h1 h2)⟩

/-- The `Array.prototype.sort()` on strings (the default lexicographic code-unit
comparator). -/
def sortStrings (l : List String) : List String :=
  List.insertionSort stringLeRel l

/-- The `Array.prototype.join(',')`. -/
def joinComma : List String → String
  | [] => ""
  | [s] => s
  | s :: x :: xs => s ++ "," ++ joinComma (x :: xs)

/-- The canonical key of `deduplicateSuggestions`:
`members.map(m => m.noteId).sort().join(',')`. -/
def canonicalKey (suggestion : SynthesisSuggestion) : String :=
  joinComma (sortStrings (memberNoteIds suggestion))

/-- The filter loop of `deduplicateSuggestions` with its `seen` set of canonical keys
(the JavaScript `Set<string>` is modelled as the list of the keys added so far). -/
def dedupAux (seen : List String) : List SynthesisSuggestion → List SynthesisSuggestion
  | [] => []
  | suggestion :: rest =>
    if canonicalKey suggestion ∈ seen then dedupAux seen rest
    else suggestion :: dedupAux (canonicalKey suggestion :: seen) rest

/-- The `deduplicateSuggestions`. -/
def deduplicateSuggestions (suggestions : List SynthesisSuggestion) :
    List SynthesisSuggestion :=
  dedupAux [] suggestions

end SuggestSynthesisUseCase

/-! ## Properties of `deduplicateSuggestions` -/

namespace SuggestSynthesisUseCase

theorem dedupAux_sublist (seen : List String) (l : List SynthesisSuggestion) :
    (dedupAux seen l).Sublist l := by
  induction l generalizing seen with
  | nil => simp [dedupAux]
  | cons s rest ih =>
    rw [dedupAux]
    split
    · exact (ih seen).cons s
    · exact (ih _).cons₂ s

theorem dedupAux_filter_key (l : List SynthesisSuggestion) :
    ∀ (seen : List String) (k : String),
      (dedupAux seen l).filter (fun t => canonicalKey t = k) =
        if k ∈ seen then [] else (l.find? (fun t => canonicalKey t = k)).toList := by
  induction l with
  | nil =>
    intro seen k
    simp [dedupAux]
  | cons s rest ih =>
    intro seen k
    rw [dedupAux]
    by_cases hks : canonicalKey s ∈ seen
    · rw [if_pos hks, ih seen k]
      by_cases hkmem : k ∈ seen
      · rw [if_pos hkmem, if_pos hkmem]
      · rw [if_neg hkmem, if_neg hkmem,
          List.find?_cons_of_neg _ (by simp; intro hc; exact hkmem (hc ▸ hks))]
    · rw [if_neg hks]
      by_cases hkk : canonicalKey s = k
      · have hkmem : k ∉ seen := fun hmem => hks (hkk ▸ hmem)
        rw [List.filter_cons_of_pos (by simpa using hkk), ih _ k,
          if_pos (by rw [← hkk]; exact List.mem_cons_self _ _), if_neg hkmem,
          List.find?_cons_of_pos _ (by simpa using hkk)]
        rfl
      · rw [List.filter_cons_of_neg (by simpa using hkk), ih _ k,
          List.find?_cons_of_neg _ (by simpa using hkk)]
        by_cases hkmem : k ∈ seen
        · rw [if_pos (List.mem_cons_of_mem _ hkmem), if_pos hkmem]
        · have hknotin : k ∉ canonicalKey s :: seen := by
            intro hmem
            rcases List.mem_cons.mp hmem with heq | hmem2
            · exact hkk heq.symm
            · exact hkmem hmem2
          rw [if_neg hknotin, if_neg hkmem]

theorem dedupAux_key_not_mem (l : List SynthesisSuggestion) :
    ∀ (seen : List String), ∀ s ∈ dedupAux seen l, canonicalKey s ∉ seen := by
  induction l with
  | nil =>
    intro seen s hs
    simp [dedupAux] at hs
  | cons t rest ih =>
    intro seen s hs
    rw [dedupAux] at hs
    split at hs
    · exact ih seen s hs
    · next hks =>
      rcases List.mem_cons.mp hs with rfl | hs
      · exact hks
      · intro hmem
        exact ih _ s hs (List.mem_cons_of_mem _ hmem)

theorem dedupAux_pairwise_key (l : List SynthesisSuggestion) :
    ∀ seen : List String,
      (dedupAux seen l).Pairwise (fun s t => canonicalKey s ≠ canonicalKey t) := by
  induction l with
  | nil => intro seen; simp [dedupAux]
  | cons t rest ih =>
    intro seen
    rw [dedupAux]
    split
    · exact ih seen
    · refine List.Pairwise.cons ?_ (ih _)
      intro u hu hkey
      exact dedupAux_key_not_mem rest _ u hu
        (by rw [← hkey]; exact List.mem_cons_self _ _)

theorem sortStrings_perm (l : List String) : (sortStrings l).Perm l :=
  List.perm_insertionSort _ l

theorem sortStrings_eq_of_perm {l1 l2 : List String} (h : l1.Perm l2) :
    sortStrings l1 = sortStrings l2 :=
  List.eq_of_perm_of_sorted ((sortStrings_perm l1).trans (h.trans (sortStrings_perm l2).symm))
    (List.sorted_insertionSort _ l1) (List.sorted_insertionSort _ l2)

/-- Splitting a character list at its first comma is unambiguous. -/
theorem splitFirstComma :
    ∀ x y a b : List Char, ',' ∉ x → ',' ∉ y →
      x ++ ',' :: a = y ++ ',' :: b → x = y ∧ a = b := by
  intro x
  induction x with
  | nil =>
    intro y a b _ hy h
    cases y with
    | nil => simpa using h
    | cons d ds =>
      exfalso
      rw [List.nil_append, List.cons_append] at h
      injection h with h1 _
      apply hy
      rw [← h1]
      exact List.mem_cons_self _ _
  | cons c cs ih =>
    intro y a b hx hy h
    cases y with
    | nil =>
      exfalso
      rw [List.nil_append, List.cons_append] at h
      injection h with h1 _
      apply hx
      rw [h1]
      exact List.mem_cons_self _ _
    | cons d ds =>
      rw [List.cons_append, List.cons_append] at h
      injection h with h1 h2
      have hx' : ',' ∉ cs := fun hin => hx (List.mem_cons_of_mem _ hin)
      have hy' : ',' ∉ ds := fun hin => hy (List.mem_cons_of_mem _ hin)
      obtain ⟨heq, hab⟩ := ih ds a b hx' hy' h2
      exact ⟨by rw [h1, heq], hab⟩

/-- The `join(',')` is injective on lists of nonempty comma-free strings. -/
theorem joinComma_inj :
    ∀ l1 l2 : List String,
      (∀ s ∈ l1, s ≠ "" ∧ ',' ∉ s.data) → (∀ s ∈ l2, s ≠ "" ∧ ',' ∉ s.data) →
      joinComma l1 = joinComma l2 → l1 = l2 := by
  intro l1
  induction l1 with
  | nil =>
    intro l2 _ hg2 h
    cases l2 with
    | nil => rfl
    | cons s2 r2 =>
      exfalso
      cases r2 with
      | nil =>
        exact (hg2 s2 (List.mem_cons_self _ _)).1 (by rw [joinComma, joinComma] at h; exact h.symm)
      | cons x xs =>
        rw [joinComma, joinComma] at h
        have hdata := congrArg String.data h
        rw [String.data_append, String.data_append] at hdata
        have : ([] : List Char) = s2.data ++ [','] ++ (joinComma (x :: xs)).data := by
          simpa using hdata
        have hlen := congrArg List.length this
        simp only [List.length_nil, List.length_append, List.length_cons] at hlen
        omega
  | cons s1 r1 ih =>
    intro l2 hg1 hg2 h
    cases l2 with
    | nil =>
      exfalso
      cases r1 with
      | nil =>
        exact (hg1 s1 (List.mem_cons_self _ _)).1 (by rw [joinComma, joinComma] at h; exact h)
      | cons x xs =>
        rw [joinComma, joinComma] at h
        have hdata := congrArg String.data h
        rw [String.data_append, String.data_append] at hdata
        have : s1.data ++ [','] ++ (joinComma (x :: xs)).data = ([] : List Char) := by
          simpa using hdata
        have hlen := congrArg List.length this
        simp only [List.length_nil, List.length_append, List.length_cons] at hlen
        omega
    | cons s2 r2 =>
      cases r1 with
      | nil =>
        cases r2 with
        | nil =>
          rw [joinComma, joinComma] at h
          rw [h]
        | cons x xs =>
          exfalso
          rw [joinComma, joinComma] at h
          have hdata := congrArg String.data h
          rw [String.data_append, String.data_append] at hdata
          apply (hg1 s1 (List.mem_cons_self _ _)).2
          rw [hdata]
          simp
      | cons u us =>
        cases r2 with
        | nil =>
          exfalso
          rw [joinComma, joinComma] at h
          have hdata := congrArg String.data h
          rw [String.data_append, String.data_append] at hdata
          apply (hg2 s2 (List.mem_cons_self _ _)).2
          rw [← hdata]
          simp
        | cons v vs =>
          rw [joinComma, joinComma] at h
          have hdata := congrArg String.data h
          rw [String.data_append, String.data_append, String.data_append,
            String.data_append] at hdata
          have hsplit := splitFirstComma s1.data s2.data
            (joinComma (u :: us)).data (joinComma (v :: vs)).data
            (hg1 s1 (List.mem_cons_self _ _)).2 (hg2 s2 (List.mem_cons_self _ _)).2
            (by simpa [List.append_assoc] using hdata)
          have hs : s1 = s2 := String.ext hsplit.1
          have hrest : joinComma (u :: us) = joinComma (v :: vs) := String.ext hsplit.2
          have hg1' : ∀ s ∈ u :: us, s ≠ "" ∧ ',' ∉ s.data :=
            fun s hs' => hg1 s (List.mem_cons_of_mem _ hs')
          have hg2' : ∀ s ∈ v :: vs, s ≠ "" ∧ ',' ∉ s.data :=
            fun s hs' => hg2 s (List.mem_cons_of_mem _ hs')
          rw [hs, ih (v :: vs) hg1' hg2' hrest]

namespace SuggestSynthesisUseCase

/-- Two suggestions' member-noteId sets are equal as sets (membership-equivalent
regardless of order or position). -/
def sameIdSet (s t : SynthesisSuggestion) : Prop :=
  ∀ x, x ∈ memberNoteIds s ↔ x ∈ memberNoteIds t

/-- Decidable (Boolean) form of `sameIdSet`: mutual containment of the id lists. -/
def sameIdSetB (s t : SynthesisSuggestion) : Bool :=
  (memberNoteIds s).all (fun x => x ∈ memberNoteIds t) &&
    (memberNoteIds t).all (fun x => x ∈ memberNoteIds s)

theorem sameIdSetB_iff (s t : SynthesisSuggestion) : sameIdSetB s t = true ↔ sameIdSet s t := by
  unfold sameIdSetB sameIdSet
  simp only [Bool.and_eq_true, List.all_eq_true, decide_eq_true_eq]
  constructor
  · rintro ⟨h1, h2⟩ x
    exact ⟨fun hx => h1 x hx, fun hx => h2 x hx⟩
  · intro h
    exact ⟨fun x hx => (h x).mp hx, fun x hx => (h x).mpr hx⟩

theorem canonicalKey_eq_of_sameIdSet {s t : SynthesisSuggestion}
    (hs : (memberNoteIds s).Nodup) (ht : (memberNoteIds t).Nodup)
    (hset : sameIdSet s t) : canonicalKey s = canonicalKey t := by
  unfold canonicalKey
  rw [sortStrings_eq_of_perm ((List.perm_ext_iff_of_nodup hs ht).mpr hset)]

theorem sameIdSet_of_canonicalKey_eq {s t : SynthesisSuggestion}
    (hgs : ∀ x ∈ memberNoteIds s, x ≠ "" ∧ ',' ∉ x.data)
    (hgt : ∀ x ∈ memberNoteIds t, x ≠ "" ∧ ',' ∉ x.data)
    (hk : canonicalKey s = canonicalKey t) : sameIdSet s t := by
  have hsorted : sortStrings (memberNoteIds s) = sortStrings (memberNoteIds t) :=
    joinComma_inj _ _
      (fun u hu => hgs u ((sortStrings_perm _).mem_iff.mp hu))
      (fun u hu => hgt u ((sortStrings_perm _).mem_iff.mp hu)) hk
  intro x
  calc x ∈ memberNoteIds s ↔ x ∈ sortStrings (memberNoteIds s) :=
      (sortStrings_perm _).mem_iff.symm
    _ ↔ x ∈ sortStrings (memberNoteIds t) := by rw [hsorted]
    _ ↔ x ∈ memberNoteIds t := (sortStrings_perm _).mem_iff

theorem find?_of_agree {p q : SynthesisSuggestion → Bool} :
    ∀ l : List SynthesisSuggestion, (∀ a ∈ l, p a = q a) → l.find? p = l.find? q := by
  intro l
  induction l with
  | nil => intro _; rfl
  | cons a rest ih =>
    intro h
    have ha := h a (List.mem_cons_self _ _)
    rw [List.find?_cons, List.find?_cons, ha, ih (fun b hb => h b (List.mem_cons_of_mem _ hb))]

end SuggestSynthesisUseCase

/-! ## Claim theorems -/

/-- C1 counterexample: searching the in-memory store with a query vector whose dimension
differs from a stored (non-excluded) vector's throws instead of skipping — the claim
that a dimension mismatch never causes a vector-store search to throw is false for
`InMemoryVectorStore`. -/
theorem c1_counterexample :
    InMemoryVectorStore.search [⟨"a", "a.md", [1, 2]⟩] [1, 2, 3] ⟨some 10, some 0, some []⟩ =
      .error "Vectors must have the same dimensions" := by
  simp [InMemoryVectorStore.search, InMemoryVectorStore.searchLoop,
    InMemoryVectorStore.cosineSimilarity, Except.map]

/-- C1 (amended): in the read-through `VaultEmbeddingsVectorStore`, every stored vector
whose dimensionality differs from the query vector's is silently skipped — searching is
the same as searching only the matching-dimension entries, and the search always returns
normally (its model is a total function); the `InMemoryVectorStore`, by contrast, throws
on a non-excluded mismatched entry (see the counterexample). -/
theorem c1_vault_skips_mismatched_dimensions (store : VaultEmbeddingsVectorStore.Store)
    (queryVector : List ℝ) (options : VectorSearchOptions) :
    VaultEmbeddingsVectorStore.search store queryVector options =
      VaultEmbeddingsVectorStore.search
        (store.filter (fun e => queryVector.length = e.vector.length)) queryVector options := by
  unfold VaultEmbeddingsVectorStore.search
  rw [← VaultEmbeddingsVectorStore.searchLoop_filter_dims]

/-- C1 witness: the amended theorem at a concrete store and query. -/
theorem c1_witness :
    VaultEmbeddingsVectorStore.search [⟨"a", "a.md", [1, 2]⟩] [1, 2, 3]
        ⟨some 10, some 0, some []⟩ =
      VaultEmbeddingsVectorStore.search
        (([⟨"a", "a.md", [1, 2]⟩] : List EmbeddingVector).filter
          (fun e => ([1, 2, 3] : List ℝ).length = e.vector.length))
        [1, 2, 3] ⟨some 10, some 0, some []⟩ :=
  c1_vault_skips_mismatched_dimensions _ _ _

/-- C2 counterexample: with options carrying no threshold, a stored, non-excluded vector
of matching dimension whose similarity is 0 is not returned (in either store, and with
`limit = 10` leaving room) — the index does impose its own minimum-similarity cutoff. -/
theorem c2_counterexample :
    VaultEmbeddingsVectorStore.search [⟨"a", "a.md", [0, 1]⟩] [1, 0]
        ⟨some 10, none, some []⟩ = [] ∧
      InMemoryVectorStore.search [⟨"a", "a.md", [0, 1]⟩] [1, 0]
        ⟨some 10, none, some []⟩ = .ok [] := by
  have hd : dotList [1, 0] [1, 0] = 1 := by norm_num [dotList]
  have hd2 : dotList [0, 1] [0, 1] = 1 := by norm_num [dotList]
  have hd3 : dotList [1, 0] [0, 1] = 0 := by norm_num [dotList]
  have hth : ¬((3 : ℝ) / 10 ≤ 0) := by norm_num
  constructor
  · simp [VaultEmbeddingsVectorStore.search, VaultEmbeddingsVectorStore.searchLoop,
      VaultEmbeddingsVectorStore.cosineSimilarity, hd, hd2, hd3, hth]
  · simp [InMemoryVectorStore.search, InMemoryVectorStore.searchLoop,
      InMemoryVectorStore.cosineSimilarity, hd, hd2, hd3, hth, Except.map]

/-- C2 (amended): when the search options carry no threshold, both vector stores apply
their own default threshold of 0.3 — the search behaves exactly as if the caller had
passed `threshold = 0.3`, and every returned entry has similarity at least 0.3.  (The
coherence calculation's neighbor queries pass no threshold, so they run against this
index-imposed 0.3 floor.) -/
theorem c2_default_threshold (store : List EmbeddingVector) (queryVector : List ℝ)
    (limit : Option Nat) (excludeNoteIds : Option (List String)) :
    (VaultEmbeddingsVectorStore.search store queryVector ⟨limit, none, excludeNoteIds⟩ =
        VaultEmbeddingsVectorStore.search store queryVector
          ⟨limit, some (3 / 10), excludeNoteIds⟩) ∧
    (InMemoryVectorStore.search store queryVector ⟨limit, none, excludeNoteIds⟩ =
        InMemoryVectorStore.search store queryVector
          ⟨limit, some (3 / 10), excludeNoteIds⟩) ∧
    ∀ r ∈ VaultEmbeddingsVectorStore.search store queryVector ⟨limit, none, excludeNoteIds⟩,
      3 / 10 ≤ r.similarity := by
  refine ⟨rfl, rfl, ?_⟩
  intro r hr
  simpa using
    ((VaultEmbeddingsVectorStore.search_spec store queryVector
      ⟨limit, none, excludeNoteIds⟩).1 r hr).1

/-- C2 witness: the amended theorem at a concrete store and query. -/
theorem c2_witness :
    (VaultEmbeddingsVectorStore.search [⟨"a", "a.md", [0, 1]⟩] [1, 0]
        ⟨some 10, none, some []⟩ =
      VaultEmbeddingsVectorStore.search [⟨"a", "a.md", [0, 1]⟩] [1, 0]
        ⟨some 10, some (3 / 10), some []⟩) ∧
    (InMemoryVectorStore.search [⟨"a", "a.md", [0, 1]⟩] [1, 0]
        ⟨some 10, none, some []⟩ =
      InMemoryVectorStore.search [⟨"a", "a.md", [0, 1]⟩] [1, 0]
        ⟨some 10, some (3 / 10), some []⟩) ∧
    ∀ r ∈ VaultEmbeddingsVectorStore.search [⟨"a", "a.md", [0, 1]⟩] [1, 0]
        ⟨some 10, none, some []⟩,
      3 / 10 ≤ r.similarity :=
  c2_default_threshold _ _ _ _

/-- C5: for a search with explicit `limit`, `threshold = t` and `excludeNoteIds = E`, in
either store, every returned entry has similarity at least `t` and an id outside `E`,
at most `limit` entries are returned, and the list is sorted by similarity
non-increasing (for the in-memory store, whenever the search returns at all). -/
theorem c5_search_postconditions (store : List EmbeddingVector) (queryVector : List ℝ)
    (limit : Nat) (t : ℝ) (excludeNoteIds : List String) :
    (∀ rs, InMemoryVectorStore.search store queryVector
        ⟨some limit, some t, some excludeNoteIds⟩ = .ok rs →
      (∀ r ∈ rs, t ≤ r.similarity ∧ r.noteId ∉ excludeNoteIds) ∧
        rs.length ≤ limit ∧ rs.Pairwise (fun a b => b.similarity ≤ a.similarity)) ∧
    ((∀ r ∈ VaultEmbeddingsVectorStore.search store queryVector
        ⟨some limit, some t, some excludeNoteIds⟩,
        t ≤ r.similarity ∧ r.noteId ∉ excludeNoteIds) ∧
      (VaultEmbeddingsVectorStore.search store queryVector
        ⟨some limit, some t, some excludeNoteIds⟩).length ≤ limit ∧
      (VaultEmbeddingsVectorStore.search store queryVector
        ⟨some limit, some t, some excludeNoteIds⟩).Pairwise
        (fun a b => b.similarity ≤ a.similarity)) := by
  constructor
  · intro rs hrs
    obtain ⟨hmem, hlen, hsorted⟩ := InMemoryVectorStore.search_ok_spec hrs
    refine ⟨?_, by simpa using hlen, hsorted⟩
    intro r hr
    obtain ⟨h1, h2, _⟩ := hmem r hr
    exact ⟨by simpa using h1, by simpa using h2⟩
  · obtain ⟨hmem, hlen, hsorted⟩ := VaultEmbeddingsVectorStore.search_spec store queryVector
      ⟨some limit, some t, some excludeNoteIds⟩
    refine ⟨?_, by simpa using hlen, hsorted⟩
    intro r hr
    obtain ⟨h1, h2, _⟩ := hmem r hr
    exact ⟨by simpa using h1, by simpa using h2⟩

/-- C5 witness: the post-conditions at a concrete store, query and options. -/
theorem c5_witness :
    (∀ rs, InMemoryVectorStore.search [] [] ⟨some 10, some 0, some ["b"]⟩ = .ok rs →
      (∀ r ∈ rs, (0 : ℝ) ≤ r.similarity ∧ r.noteId ∉ ["b"]) ∧
        rs.length ≤ 10 ∧ rs.Pairwise (fun a b => b.similarity ≤ a.similarity)) ∧
    ((∀ r ∈ VaultEmbeddingsVectorStore.search [] [] ⟨some 10, some 0, some ["b"]⟩,
        (0 : ℝ) ≤ r.similarity ∧ r.noteId ∉ ["b"]) ∧
      (VaultEmbeddingsVectorStore.search [] [] ⟨some 10, some 0, some ["b"]⟩).length ≤ 10 ∧
      (VaultEmbeddingsVectorStore.search [] [] ⟨some 10, some 0, some ["b"]⟩).Pairwise
        (fun a b => b.similarity ≤ a.similarity)) :=
  c5_search_postconditions [] [] 10 0 ["b"]

/-- C9: for equal-length vectors of which at least one has zero magnitude, both cosine
implementations return exactly 0 (the division is guarded, so the value is a genuine 0,
never an undefined quotient). -/
theorem c9_zero_magnitude_cosine (a b : List ℝ) (hlen : a.length = b.length)
    (hmag : Real.sqrt (dotList a a) = 0 ∨ Real.sqrt (dotList b b) = 0) :
    InMemoryVectorStore.cosineSimilarity a b = .ok 0 ∧
      VaultEmbeddingsVectorStore.cosineSimilarity a b = 0 := by
  have hm : Real.sqrt (dotList a a) * Real.sqrt (dotList b b) = 0 := by
    rcases hmag with h | h <;> rw [h] <;> ring
  constructor
  · unfold InMemoryVectorStore.cosineSimilarity
    rw [if_neg (by simp [hlen]), if_pos hm]
  · unfold VaultEmbeddingsVectorStore.cosineSimilarity
    rw [if_neg (by simp [hlen]), if_pos hm]

/-- C9 witness: the zero vector `[0, 0]` against `[3, 4]`. -/
theorem c9_witness :
    ([0, 0] : List ℝ).length = ([3, 4] : List ℝ).length ∧
    (Real.sqrt (dotList [0, 0] [0, 0]) = 0 ∨ Real.sqrt (dotList [3, 4] [3, 4]) = 0) ∧
    (InMemoryVectorStore.cosineSimilarity [0, 0] [3, 4] = .ok 0 ∧
      VaultEmbeddingsVectorStore.cosineSimilarity [0, 0] [3, 4] = 0) := by
  have h1 : ([0, 0] : List ℝ).length = ([3, 4] : List ℝ).length := rfl
  have hz : dotList [0, 0] [0, 0] = 0 := by norm_num [dotList]
  have h2 : Real.sqrt (dotList [0, 0] [0, 0]) = 0 ∨ Real.sqrt (dotList [3, 4] [3, 4]) = 0 :=
    Or.inl (by rw [hz, Real.sqrt_zero])
  exact ⟨h1, h2, c9_zero_magnitude_cosine [0, 0] [3, 4] h1 h2⟩

/-- C3: the coherence score is in `[0, 1]` on every path — `calculateCoherence` (used by
the tag, folder and manual clustering paths) always lies in `[0, 1]`, equals exactly 1
for fewer than 2 members, and equals 0 when the neighbor queries found no pairs inside
the cluster; the similarity-seeded path's coherence (computed inside `autoCluster`) also
lies in `[0, 1]` for any nonnegative threshold (the source always passes `0.5`). -/
theorem c3_coherence_in_unit_interval (store : List EmbeddingVector)
    (notes : List NoteContent)
    (storeOp : List EmbeddingVector → EmbeddingVector → List EmbeddingVector)
    (embed : String → List ℝ) (repo : List NoteContent)
    (excludedFolders : List String) (seedNoteId : String) (threshold : ℝ) (maxSize : Nat)
    (ht : 0 ≤ threshold) :
    (notes.length < 2 → ClusterNotesUseCase.calculateCoherence store notes = 1) ∧
    (0 ≤ ClusterNotesUseCase.calculateCoherence store notes ∧
      ClusterNotesUseCase.calculateCoherence store notes ≤ 1) ∧
    (2 ≤ notes.length → (ClusterNotesUseCase.coherencePairs store notes).2 = 0 →
      ClusterNotesUseCase.calculateCoherence store notes = 0) ∧
    (0 ≤ (ClusterNotesUseCase.autoCluster storeOp embed repo store excludedFolders
        seedNoteId threshold maxSize).coherenceScore ∧
      (ClusterNotesUseCase.autoCluster storeOp embed repo store excludedFolders
        seedNoteId threshold maxSize).coherenceScore ≤ 1) := by
  refine ⟨?_, ClusterNotesUseCase.calculateCoherence_bounds store notes, ?_,
    ClusterNotesUseCase.autoCluster_coherence_bounds storeOp embed repo store
      excludedFolders seedNoteId threshold maxSize ht⟩
  · intro h
    unfold ClusterNotesUseCase.calculateCoherence
    rw [if_pos h]
  · intro h2 hzero
    unfold ClusterNotesUseCase.calculateCoherence
    rw [if_neg (by omega), if_neg (by omega)]

/-- C3 witness: the bounds at a concrete (empty) store and note list and the default
similarity threshold `0.5`. -/
theorem c3_witness :
    (0 : ℝ) ≤ 1 / 2 ∧
    ((([] : List NoteContent).length < 2 → ClusterNotesUseCase.calculateCoherence [] [] = 1) ∧
      (0 ≤ ClusterNotesUseCase.calculateCoherence [] [] ∧
        ClusterNotesUseCase.calculateCoherence [] [] ≤ 1) ∧
      (2 ≤ ([] : List NoteContent).length →
        (ClusterNotesUseCase.coherencePairs [] []).2 = 0 →
        ClusterNotesUseCase.calculateCoherence [] [] = 0) ∧
      (0 ≤ (ClusterNotesUseCase.autoCluster InMemoryVectorStore.store (fun _ => []) []
          [] [] "seed" (1 / 2) 20).coherenceScore ∧
        (ClusterNotesUseCase.autoCluster InMemoryVectorStore.store (fun _ => []) []
          [] [] "seed" (1 / 2) 20).coherenceScore ≤ 1)) :=
  ⟨by norm_num,
    c3_coherence_in_unit_interval [] [] InMemoryVectorStore.store (fun _ => []) [] []
      "seed" (1 / 2) 20 (by norm_num)⟩

/-- C6: for `maxSize ≥ 1`, the cluster returned by `autoCluster` has at most `maxSize`
members, and whenever the seed resolves, is not excluded, and at least `maxSize - 1`
candidate neighbors (above the threshold) survive the excluded-path filtering, the
cluster has exactly `maxSize` members. -/
theorem c6_autoCluster_size
    (storeOp : List EmbeddingVector → EmbeddingVector → List EmbeddingVector)
    (embed : String → List ℝ) (repo : List NoteContent)
    (store : List EmbeddingVector) (excludedFolders : List String) (seedNoteId : String)
    (threshold : ℝ) (maxSize : Nat) (hm : 1 ≤ maxSize) :
    (ClusterNotesUseCase.autoCluster storeOp embed repo store excludedFolders seedNoteId
        threshold maxSize).members.length ≤ maxSize ∧
    ∀ seedNote : NoteContent, repo.find? (fun n => n.noteId = seedNoteId) = some seedNote →
      ClusterNotesUseCase.isExcludedPath excludedFolders seedNote.notePath = false →
      maxSize - 1 ≤ (ClusterNotesUseCase.autoClusterCandidates excludedFolders
          (EmbeddingService.embedNote storeOp embed store
            ⟨seedNote.noteId, seedNote.notePath,
              seedNote.title ++ "\n\n" ++ seedNote.content⟩)
          seedNoteId threshold maxSize).length →
      (ClusterNotesUseCase.autoCluster storeOp embed repo store excludedFolders seedNoteId
          threshold maxSize).members.length = maxSize := by
  refine ⟨ClusterNotesUseCase.autoCluster_members_le storeOp embed repo store
    excludedFolders seedNoteId threshold maxSize hm, ?_⟩
  intro seedNote hfound hex hcand
  exact ClusterNotesUseCase.autoCluster_members_exact storeOp embed repo store
    excludedFolders seedNoteId threshold maxSize seedNote hm hfound hex hcand

/-- C6 witness: the size bound at a concrete repository, seed and `maxSize = 1`. -/
theorem c6_witness :
    1 ≤ 1 ∧
    ((ClusterNotesUseCase.autoCluster InMemoryVectorStore.store (fun _ => [])
        [⟨"s", "s.md", "t", "c", []⟩] [] [] "s" (1 / 2) 1).members.length ≤ 1 ∧
      ∀ seedNote : NoteContent,
        ([⟨"s", "s.md", "t", "c", []⟩] : List NoteContent).find?
            (fun n => n.noteId = "s") = some seedNote →
        ClusterNotesUseCase.isExcludedPath [] seedNote.notePath = false →
        1 - 1 ≤ (ClusterNotesUseCase.autoClusterCandidates []
            (EmbeddingService.embedNote InMemoryVectorStore.store (fun _ => []) []
              ⟨seedNote.noteId, seedNote.notePath,
                seedNote.title ++ "\n\n" ++ seedNote.content⟩)
            "s" (1 / 2) 1).length →
        (ClusterNotesUseCase.autoCluster InMemoryVectorStore.store (fun _ => [])
            [⟨"s", "s.md", "t", "c", []⟩] [] [] "s" (1 / 2) 1).members.length = 1) :=
  ⟨le_rfl,
    c6_autoCluster_size InMemoryVectorStore.store (fun _ => [])
      [⟨"s", "s.md", "t", "c", []⟩] [] [] "s" (1 / 2) 1 le_rfl⟩

/-- C10: `findSimilarByNoteId` returns the empty list for a note with no stored
embedding, and never returns the query note itself (its id is appended to the exclusion
list before the store search runs, whatever exclusions the caller supplied). -/
theorem c10_findSimilarByNoteId_self_exclusion (store : List EmbeddingVector)
    (noteId : String) (options : VectorSearchOptions) :
    (store.find? (fun e => e.noteId = noteId) = none →
      EmbeddingService.findSimilarByNoteId store noteId options = []) ∧
    ∀ r ∈ EmbeddingService.findSimilarByNoteId store noteId options, r.noteId ≠ noteId := by
  constructor
  · intro h
    unfold EmbeddingService.findSimilarByNoteId
    rw [h]
  · intro r hr
    exact (EmbeddingService.findSimilarByNoteId_mem r hr).2.2.1

/-- C10 witness: the property at a concrete store, note id and caller exclusions. -/
theorem c10_witness :
    (([] : List EmbeddingVector).find? (fun e => e.noteId = "n") = none →
      EmbeddingService.findSimilarByNoteId [] "n" ⟨some 5, none, some ["other"]⟩ = []) ∧
    ∀ r ∈ EmbeddingService.findSimilarByNoteId [] "n" ⟨some 5, none, some ["other"]⟩,
      r.noteId ≠ "n" :=
  c10_findSimilarByNoteId_self_exclusion [] "n" ⟨some 5, none, some ["other"]⟩

/-- C4: when the external generator call fails, `execute` propagates the error and the
note repository is untouched — no `createNote` write is recorded; indeed `execute`
records no write for any generator whatsoever, because `createNote` is reached only
inside the separate `saveResult` step. -/
theorem c4_generation_failure_writes_nothing
    (generate : SynthesisRequest → List NoteContent → Except String SynthesisResult)
    (repo : List NoteContent) (input : SynthesizeNotesInput) (msg : String)
    (hgen : ∀ request noteContents, generate request noteContents = .error msg)
    (hmembers : input.cluster.members ≠ [])
    (hfetch : SynthesizeNotesUseCase.fetchNoteContents repo
      (input.cluster.members.map (fun m => m.noteId)) ≠ []) :
    SynthesizeNotesUseCase.execute generate repo input = (.error msg, []) ∧
    ∀ g : SynthesisRequest → List NoteContent → Except String SynthesisResult,
      (SynthesizeNotesUseCase.execute g repo input).2 = [] := by
  constructor
  · unfold SynthesizeNotesUseCase.execute
    dsimp only
    rw [if_neg (by simp [List.isEmpty_iff, hmembers]), if_neg (by simp [List.isEmpty_iff, hfetch]),
      hgen]
  · intro g
    unfold SynthesizeNotesUseCase.execute
    dsimp only
    split
    · rfl
    · split
      · rfl
      · split <;> rfl

/-- C4 witness: a one-member cluster over a one-note repository with an always-failing
generator. -/
theorem c4_witness :
    SynthesizeNotesUseCase.execute
        (fun _ _ => .error "ExternalServiceError") [⟨"n1", "n1.md", "t", "content", []⟩]
        ⟨⟨"c", [⟨"n1", "n1.md", "t", 1⟩], 0, .manual⟩, .summary, none, {}⟩ =
      (.error "ExternalServiceError", []) ∧
    ∀ g : SynthesisRequest → List NoteContent → Except String SynthesisResult,
      (SynthesizeNotesUseCase.execute g [⟨"n1", "n1.md", "t", "content", []⟩]
        ⟨⟨"c", [⟨"n1", "n1.md", "t", 1⟩], 0, .manual⟩, .summary, none, {}⟩).2 = [] :=
  c4_generation_failure_writes_nothing _ _ _ _ (fun _ _ => rfl)
    (List.cons_ne_nil _ _) (by decide)

/-- C8: `sortAndLimit` returns at most `maxSuggestions` suggestions, sorted with
priority non-increasing and, within equal priority, coherence non-increasing; and the
deduplication that `suggestAll` applies afterwards preserves both properties (it keeps
an in-order sublist). -/
theorem c8_suggestions_sorted_and_limited (suggestions : List SynthesisSuggestion)
    (maxSuggestions : Nat) :
    ((SuggestSynthesisUseCase.sortAndLimit suggestions maxSuggestions).length ≤
        maxSuggestions ∧
      (SuggestSynthesisUseCase.sortAndLimit suggestions maxSuggestions).Pairwise
        (fun a b =>
          SuggestSynthesisUseCase.priorityOrder b.priority ≤
              SuggestSynthesisUseCase.priorityOrder a.priority ∧
            (SuggestSynthesisUseCase.priorityOrder a.priority =
                SuggestSynthesisUseCase.priorityOrder b.priority →
              b.cluster.coherenceScore ≤ a.cluster.coherenceScore))) ∧
    ((SuggestSynthesisUseCase.deduplicateSuggestions
          (SuggestSynthesisUseCase.sortAndLimit suggestions maxSuggestions)).length ≤
        maxSuggestions ∧
      (SuggestSynthesisUseCase.deduplicateSuggestions
          (SuggestSynthesisUseCase.sortAndLimit suggestions maxSuggestions)).Pairwise
        (fun a b =>
          SuggestSynthesisUseCase.priorityOrder b.priority ≤
              SuggestSynthesisUseCase.priorityOrder a.priority ∧
            (SuggestSynthesisUseCase.priorityOrder a.priority =
                SuggestSynthesisUseCase.priorityOrder b.priority →
              b.cluster.coherenceScore ≤ a.cluster.coherenceScore))) := by
  have hconv : ∀ {a b : SynthesisSuggestion}, SuggestSynthesisUseCase.suggestionBefore a b →
      SuggestSynthesisUseCase.priorityOrder b.priority ≤
          SuggestSynthesisUseCase.priorityOrder a.priority ∧
        (SuggestSynthesisUseCase.priorityOrder a.priority =
            SuggestSynthesisUseCase.priorityOrder b.priority →
          b.cluster.coherenceScore ≤ a.cluster.coherenceScore) := by
    rintro a b (h | ⟨heq, hc⟩)
    · exact ⟨le_of_lt h, fun habs => absurd habs (by omega)⟩
    · exact ⟨le_of_eq heq, fun _ => hc⟩
  have hsorted : (SuggestSynthesisUseCase.sortAndLimit suggestions maxSuggestions).Pairwise
      (fun a b =>
        SuggestSynthesisUseCase.priorityOrder b.priority ≤
            SuggestSynthesisUseCase.priorityOrder a.priority ∧
          (SuggestSynthesisUseCase.priorityOrder a.priority =
              SuggestSynthesisUseCase.priorityOrder b.priority →
            b.cluster.coherenceScore ≤ a.cluster.coherenceScore)) := by
    have hp := (List.sorted_insertionSort SuggestSynthesisUseCase.suggestionBefore
      suggestions).imp (fun h => hconv h)
    exact List.Pairwise.sublist (List.take_sublist _ _) hp
  have hlen : (SuggestSynthesisUseCase.sortAndLimit suggestions maxSuggestions).length ≤
      maxSuggestions := List.length_take_le _ _
  have hsub : (SuggestSynthesisUseCase.deduplicateSuggestions
      (SuggestSynthesisUseCase.sortAndLimit suggestions maxSuggestions)).Sublist
      (SuggestSynthesisUseCase.sortAndLimit suggestions maxSuggestions) :=
    SuggestSynthesisUseCase.dedupAux_sublist [] _
  exact ⟨⟨hlen, hsorted⟩, ⟨le_trans hsub.length_le hlen,
    List.Pairwise.sublist hsub hsorted⟩⟩

/-- C8 witness: the properties at a concrete suggestion list and limit. -/
theorem c8_witness :
    ((SuggestSynthesisUseCase.sortAndLimit [] 0).length ≤ 0 ∧
      (SuggestSynthesisUseCase.sortAndLimit [] 0).Pairwise
        (fun a b =>
          SuggestSynthesisUseCase.priorityOrder b.priority ≤
              SuggestSynthesisUseCase.priorityOrder a.priority ∧
            (SuggestSynthesisUseCase.priorityOrder a.priority =
                SuggestSynthesisUseCase.priorityOrder b.priority →
              b.cluster.coherenceScore ≤ a.cluster.coherenceScore))) ∧
    ((SuggestSynthesisUseCase.deduplicateSuggestions
          (SuggestSynthesisUseCase.sortAndLimit [] 0)).length ≤ 0 ∧
      (SuggestSynthesisUseCase.deduplicateSuggestions
          (SuggestSynthesisUseCase.sortAndLimit [] 0)).Pairwise
        (fun a b =>
          SuggestSynthesisUseCase.priorityOrder b.priority ≤
              SuggestSynthesisUseCase.priorityOrder a.priority ∧
            (SuggestSynthesisUseCase.priorityOrder a.priority =
                SuggestSynthesisUseCase.priorityOrder b.priority →
              b.cluster.coherenceScore ≤ a.cluster.coherenceScore))) :=
  c8_suggestions_sorted_and_limited [] 0

/-- A suggestion whose cluster carries the given member note ids (each member's path and
title are its id, and the numeric fields are fixed); used by the C7 example inputs. -/
def exampleSuggestion (noteIds : List String) : SynthesisSuggestion :=
  { cluster :=
      { name := "cluster"
        members := noteIds.map (fun noteId => ⟨noteId, noteId, noteId, 1⟩)
        coherenceScore := 0
        source := .manual }
    reason := "reason"
    priority := .low
    suggestedType := .summary }

/-- C7 counterexample: the suggestions with member-id sets `{"x", "y"}` (in both orders)
are set-equal, yet after deduplication of a list headed by a suggestion with the single
member id `"x,y"` — whose canonical key `"x,y"` collides with theirs — *zero* suggestions
with that member-id set survive, not exactly one: the claim fails as stated. -/
theorem c7_counterexample :
    SuggestSynthesisUseCase.sameIdSet (exampleSuggestion ["x", "y"])
        (exampleSuggestion ["y", "x"]) ∧
      (SuggestSynthesisUseCase.deduplicateSuggestions
          [exampleSuggestion ["x,y"], exampleSuggestion ["x", "y"],
            exampleSuggestion ["y", "x"]]).filter
        (fun t => SuggestSynthesisUseCase.sameIdSetB t (exampleSuggestion ["x", "y"])) =
        [] := by
  constructor
  · exact (SuggestSynthesisUseCase.sameIdSetB_iff _ _).mp rfl
  · rfl

/-- C7 (amended): provided every suggestion's member-id list is duplicate-free (the
cluster invariant) and every id is a nonempty comma-free string, deduplication keeps,
for each suggestion, exactly the first incoming suggestion with a set-equal member-id
set, and no two suggestions in the output have set-equal member-id sets. -/
theorem c7_dedup_set_equality (suggestions : List SynthesisSuggestion)
    (hnodup : ∀ s ∈ suggestions, (SuggestSynthesisUseCase.memberNoteIds s).Nodup)
    (hgood : ∀ s ∈ suggestions, ∀ x ∈ SuggestSynthesisUseCase.memberNoteIds s,
      x ≠ "" ∧ ',' ∉ x.data) :
    (∀ s ∈ suggestions,
      (SuggestSynthesisUseCase.deduplicateSuggestions suggestions).filter
          (fun t => SuggestSynthesisUseCase.sameIdSetB t s) =
        (suggestions.find? (fun t => SuggestSynthesisUseCase.sameIdSetB t s)).toList) ∧
    (SuggestSynthesisUseCase.deduplicateSuggestions suggestions).Pairwise
      (fun s t => ¬SuggestSynthesisUseCase.sameIdSet s t) := by
  have hagree : ∀ s ∈ suggestions, ∀ t ∈ suggestions,
      SuggestSynthesisUseCase.sameIdSetB t s =
        decide (SuggestSynthesisUseCase.canonicalKey t =
          SuggestSynthesisUseCase.canonicalKey s) := by
    intro s hs t ht
    by_cases hB : SuggestSynthesisUseCase.sameIdSetB t s = true
    · have hset := (SuggestSynthesisUseCase.sameIdSetB_iff t s).mp hB
      have hk := SuggestSynthesisUseCase.canonicalKey_eq_of_sameIdSet (hnodup t ht)
        (hnodup s hs) hset
      rw [hB, decide_eq_true hk]
    · have hk : ¬SuggestSynthesisUseCase.canonicalKey t =
          SuggestSynthesisUseCase.canonicalKey s := by
        intro hk
        exact hB ((SuggestSynthesisUseCase.sameIdSetB_iff t s).mpr
          (SuggestSynthesisUseCase.sameIdSet_of_canonicalKey_eq (hgood t ht) (hgood s hs) hk))
      rw [eq_false_of_ne_true hB, decide_eq_false hk]
  constructor
  · intro s hs
    have hfilter : (SuggestSynthesisUseCase.deduplicateSuggestions suggestions).filter
        (fun t => SuggestSynthesisUseCase.sameIdSetB t s) =
        (SuggestSynthesisUseCase.deduplicateSuggestions suggestions).filter
          (fun t => SuggestSynthesisUseCase.canonicalKey t =
            SuggestSynthesisUseCase.canonicalKey s) :=
      List.filter_congr (fun t ht => hagree s hs t
        ((SuggestSynthesisUseCase.dedupAux_sublist [] suggestions).subset ht))
    rw [hfilter]
    show (SuggestSynthesisUseCase.dedupAux [] suggestions).filter _ = _
    rw [SuggestSynthesisUseCase.dedupAux_filter_key suggestions []
      (SuggestSynthesisUseCase.canonicalKey s)]
    rw [if_neg (List.not_mem_nil _)]
    exact congrArg Option.toList
      (SuggestSynthesisUseCase.find?_of_agree suggestions
        (fun t ht => (hagree s hs t ht).symm))
  · have hp := SuggestSynthesisUseCase.dedupAux_pairwise_key suggestions []
    show (SuggestSynthesisUseCase.dedupAux [] suggestions).Pairwise _
    refine hp.imp_of_mem ?_
    intro a b ha hb
    have ha' := (SuggestSynthesisUseCase.dedupAux_sublist [] suggestions).subset ha
    have hb' := (SuggestSynthesisUseCase.dedupAux_sublist [] suggestions).subset hb
    intro hne hset
    exact hne (SuggestSynthesisUseCase.canonicalKey_eq_of_sameIdSet (hnodup a ha')
      (hnodup b hb') hset)

/-- C7 witness: the amended theorem on a concrete list with one duplicated member-id
set and comma-free nonempty ids. -/
theorem c7_witness :
    (∀ s ∈ [exampleSuggestion ["x", "y"], exampleSuggestion ["y", "x"],
        exampleSuggestion ["z"]], (SuggestSynthesisUseCase.memberNoteIds s).Nodup) ∧
    (∀ s ∈ [exampleSuggestion ["x", "y"], exampleSuggestion ["y", "x"],
        exampleSuggestion ["z"]],
      ∀ x ∈ SuggestSynthesisUseCase.memberNoteIds s, x ≠ "" ∧ ',' ∉ x.data) ∧
    ((∀ s ∈ [exampleSuggestion ["x", "y"], exampleSuggestion ["y", "x"],
        exampleSuggestion ["z"]],
      (SuggestSynthesisUseCase.deduplicateSuggestions
          [exampleSuggestion ["x", "y"], exampleSuggestion ["y", "x"],
            exampleSuggestion ["z"]]).filter
          (fun t => SuggestSynthesisUseCase.sameIdSetB t s) =
        ([exampleSuggestion ["x", "y"], exampleSuggestion ["y", "x"],
            exampleSuggestion ["z"]].find?
          (fun t => SuggestSynthesisUseCase.sameIdSetB t s)).toList) ∧
      (SuggestSynthesisUseCase.deduplicateSuggestions
          [exampleSuggestion ["x", "y"], exampleSuggestion ["y", "x"],
            exampleSuggestion ["z"]]).Pairwise
        (fun s t => ¬SuggestSynthesisUseCase.sameIdSet s t)) :=
  ⟨by decide, by decide,
    c7_dedup_set_equality
      [exampleSuggestion ["x", "y"], exampleSuggestion ["y", "x"], exampleSuggestion ["z"]]
      (by decide) (by decide)⟩
